import Mathlib

/-!
Verification of the CarsXE Go client library.

The development shallowly embeds the two implementation variants of the
client: the error-returning variant (`main.go`) and the deprecated
panic-style variant of the same package.  Both variants build request
URLs with the very same sequence of `net/url` operations, so a single
set of definitions models the URL builder; where the two variants differ
(error handling in `doRequest`), both are embedded separately
(`doRequest` and `doRequestDeprecated`).  Panics of the deprecated
variant are modelled as `Except.error` values carrying the panic
message.

Strings are modelled as Lean strings; the Go code is byte-oriented, but
every byte sequence the client manipulates in the modelled paths is
valid UTF-8, where the two views agree (UTF-8 byte order coincides with
code-point order, which keeps `sort.Strings` faithful).
-/

/-! ## Byte and hex helpers (Go strconv/net behaviour) -/

/-- UTF-8 encoding of one character as a list of byte values; Go strings
are sequences of these bytes. -/
def utf8Bytes (c : Char) : List Nat :=
  let n := c.toNat
  if n < 0x80 then [n]
  else if n < 0x800 then [0xC0 + n / 64, 0x80 + n % 64]
  else if n < 0x10000 then
    [0xE0 + n / 4096, 0x80 + (n / 64) % 64, 0x80 + n % 64]
  else
    [0xF0 + n / 262144, 0x80 + (n / 4096) % 64, 0x80 + (n / 64) % 64,
      0x80 + n % 64]

/-- Upper-case hex digit, as used by Go percent-encoding. -/
def hexDigitUpper (n : Nat) : Char := "0123456789ABCDEF".data.getD n '0'

/-- Lower-case hex digit, as used by Go JSON \u escapes. -/
def hexDigitLower (n : Nat) : Char := "0123456789abcdef".data.getD n '0'

/-- Value of a hex digit character, if it is one. -/
def hexVal (c : Char) : Option Nat :=
  if '0' ≤ c ∧ c ≤ '9' then some (c.toNat - '0'.toNat)
  else if 'a' ≤ c ∧ c ≤ 'f' then some (c.toNat - 'a'.toNat + 10)
  else if 'A' ≤ c ∧ c ≤ 'F' then some (c.toNat - 'A'.toNat + 10)
  else none

/-! ## net/url query escaping (url.QueryEscape) -/

/-- Bytes Go never escapes in a query component: alphanumerics and
the four unreserved marks. -/
def isUnreservedQuery (c : Char) : Bool :=
  c.isAlphanum || c == '-' || c == '_' || c == '.' || c == '~'

/-- Go url.QueryEscape on one character: unreserved bytes kept, space
becomes plus, every other byte of the UTF-8 encoding is percent-encoded
with upper-case hex. -/
def queryEscapeChar (c : Char) : List Char :=
  if isUnreservedQuery c then [c]
  else if c == ' ' then ['+']
  else (utf8Bytes c).flatMap
    (fun b => ['%', hexDigitUpper (b / 16), hexDigitUpper (b % 16)])

/-- Go url.QueryEscape. -/
def queryEscape (s : String) : String := ⟨s.data.flatMap queryEscapeChar⟩

/-! ## net/url query parsing (url.ParseQuery) -/

/-- Split a character list at the first occurrence of a separator
(Go strings.Cut); the second component is none when the separator is
absent. -/
def cutList : List Char → Char → List Char × Option (List Char)
  | [], _ => ([], none)
  | c :: rest, sep =>
    if c = sep then ([], some rest)
    else
      let (a, b) := cutList rest sep
      (c :: a, b)

/-- Segments of a query string between ampersands, as produced by the
strings.Cut loop of url.ParseQuery (an empty input yields one empty
segment, which the pair parser then skips, matching the Go loop that
never runs on an empty query). -/
def splitOnAmp : List Char → List (List Char)
  | [] => [[]]
  | c :: rest =>
    if c = '&' then [] :: splitOnAmp rest
    else
      match splitOnAmp rest with
      | [] => [[c]]
      | s :: ss => (c :: s) :: ss

/-- Go url.QueryUnescape, modelled at the character level: plus becomes
space and a percent escape must be followed by two hex digits, which
decode to the character of that byte value.  (Go decodes at the byte
level and may thus rebuild multi-byte characters from several escapes;
the claims never depend on such inputs, and acceptance and rejection
coincide with Go on all inputs.) -/
def queryUnescape : List Char → Option (List Char)
  | [] => some []
  | '%' :: c1 :: c2 :: rest =>
    match hexVal c1, hexVal c2 with
    | some h1, some h2 =>
      (queryUnescape rest).map (fun r => Char.ofNat (16 * h1 + h2) :: r)
    | _, _ => none
  | '%' :: _ => none
  | '+' :: rest => (queryUnescape rest).map (fun r => ' ' :: r)
  | c :: rest => (queryUnescape rest).map (fun r => c :: r)

/-- One key=value segment of a query string: segments containing a
semicolon are rejected, empty segments are skipped, both sides are
unescaped and a missing equals sign means an empty value (url.ParseQuery
loop body). -/
def parsePair (seg : List Char) : Option (String × String) :=
  if seg.contains ';' then none
  else if seg.isEmpty then none
  else
    let (k, v) := cutList seg '='
    match queryUnescape k, queryUnescape (v.getD []) with
    | some k', some v' => some (⟨k'⟩, ⟨v'⟩)
    | _, _ => none

/-! ## String ordering (sort.Strings)

Go sorts query keys with the byte-wise string order; on valid UTF-8,
byte order and code-point order coincide, so the order is the
lexicographic order on characters.  (The library's String order is not
kernel-reducible, so the comparison is defined directly.) -/

/-- Lexicographic order on character lists by code point. -/
def charListLe : List Char → List Char → Bool
  | [], _ => true
  | _ :: _, [] => false
  | x :: xs, y :: ys =>
    if x = y then charListLe xs ys
    else decide (x.toNat < y.toNat)

/-- The string order sort.Strings uses. -/
def strLe (a b : String) : Bool := charListLe a.data b.data

/-! ## url.Values

Go's url.Values is a map from key to a slice of values; appends keep
the per-key order and Encode emits keys in sorted order.  The model is
the flat list of key/value pairs in insertion order: the per-key
subsequences are exactly Go's value slices, and the encoder below reads
keys in sorted order, so the flat representation is faithful. -/

/-- The url.Values multimap, as the flat list of pairs in insertion
order. -/
abbrev Values := List (String × String)

/-- Model of url.ParseQuery; the error it may additionally report is
discarded by u.Query(), which the builder uses. -/
def parseQuery (s : String) : Values :=
  (splitOnAmp s.data).filterMap parsePair

/-- The value slice stored under one key (Go v[key]). -/
def keyValues (q : Values) (k : String) : List String :=
  (q.filter (fun p => p.1 == k)).map Prod.snd

/-- Go Values.Set: the key's slice becomes the one-element slice of the
given value. -/
def valuesSet (q : Values) (k v : String) : Values :=
  q.filter (fun p => p.1 != k) ++ [(k, v)]

/-- Go Values.Add: append one value to the key's slice. -/
def valuesAdd (q : Values) (k v : String) : Values := q ++ [(k, v)]

/-- The key set of the map (order irrelevant; the encoder sorts). -/
def uniqueKeys (q : Values) : List String := (q.map Prod.fst).dedup

/-- Keys in the sorted order used by Values.Encode (sort.Strings). -/
def sortedUniqueKeys (q : Values) : List String :=
  List.insertionSort (fun a b => strLe a b = true) (uniqueKeys q)

/-- The key/value pairs in exactly the order Values.Encode writes them:
keys sorted, values of one key in slice order. -/
def queryEntries (q : Values) : List (String × String) :=
  (sortedUniqueKeys q).flatMap (fun k => (keyValues q k).map (fun v => (k, v)))

/-- Encode's buffer loop after the first entry: an ampersand before
each further entry. -/
def ampRest : List String → String
  | [] => ""
  | a :: as => "&" ++ a ++ ampRest as

/-- Encode's buffer loop: entries separated by ampersands. -/
def joinAmp : List String → String
  | [] => ""
  | a :: as => a ++ ampRest as

/-- Go url.Values.Encode. -/
def encodeValues (q : Values) : String :=
  joinAmp ((queryEntries q).map (fun p => queryEscape p.1 ++ "=" ++ queryEscape p.2))

/-! ## net/url parsing (url.Parse), restricted to what buildURL uses -/

/-- The parts of a parsed URL the builder touches: everything before
the query (scheme, authority and path, kept as written), the raw query,
and the fragment. -/
structure GoURL where
  pre : String
  rawQuery : String
  frag : Option String
deriving DecidableEq

/-- Go rejects any URL containing an ASCII control character. -/
def hasCTL (l : List Char) : Bool :=
  l.any (fun c => decide (c.toNat < 0x20) || c.toNat == 0x7f)

/-- Every percent sign is followed by two hex digits (Go validates the
escapes of the components before the query; the raw query itself is not
validated by Parse). -/
def validPercents : List Char → Bool
  | [] => true
  | '%' :: c1 :: c2 :: rest =>
    (hexVal c1).isSome && (hexVal c2).isSome && validPercents rest
  | '%' :: _ => false
  | _ :: rest => validPercents rest

/-- Model of url.Parse restricted to what buildURL needs: reject
control characters and invalid percent escapes before the query, cut
off the fragment, then the query.  (Scheme and host specific validation
of exotic inputs is not modelled; every theorem below that depends on
parsing takes the parse result as a hypothesis or uses inputs on which
Parse plainly succeeds.) -/
def parseURL (s : String) : Option GoURL :=
  if hasCTL s.data then none
  else
    let (rest, frag) := cutList s.data '#'
    let (pre, rq) := cutList rest '?'
    if validPercents pre then
      some ⟨⟨pre⟩, ⟨rq.getD []⟩, frag.map (fun f => (⟨f⟩ : String))⟩
    else none

/-- Go url.URL.String for a parsed URL whose query was replaced: the
part before the query as written, a question mark and the raw query
when the query is non-empty, the fragment when non-empty. -/
def urlString (u : GoURL) : String :=
  u.pre ++ (if u.rawQuery = "" then "" else "?" ++ u.rawQuery) ++
    (match u.frag with
     | none => ""
     | some f => if f = "" then "" else "#" ++ f)

/-! ## The client and its URL builder -/

/-- Client configuration (main.go Client; the http.Client handle plays
no role in the modelled behaviour). -/
structure Client where
  apiKey : String
  baseURL : String
  source : String

/-- Go strings.TrimLeft(endpoint, slash). -/
def trimLeftSlashes (s : String) : String :=
  ⟨s.data.dropWhile (fun c => c == '/')⟩

/-- The parameter loop of buildURL: add every pair whose value is
non-empty (for k, v := range params, if v is non-empty q.Add(k, v)).
The Go map is modelled as a list of pairs with pairwise distinct keys;
iteration order is arbitrary, which the determinism theorem settles. -/
def addParams (q : Values) (params : List (String × String)) : Values :=
  params.foldl (fun acc p => if p.2 != "" then valuesAdd acc p.1 p.2 else acc) q

/-- The query constructed by buildURL from the parsed URL's raw query:
q := u.Query(); q.Set(key); q.Set(source); add the non-empty params. -/
def buildQuery (c : Client) (raw : String) (params : List (String × String)) :
    Values :=
  addParams (valuesSet (valuesSet (parseQuery raw) "key" c.apiKey) "source" c.source)
    params

/-- buildURL of both variants (the error-returning variant returns the
parse error, the deprecated variant panics with it; the constructed URL
is the same). -/
def buildURL (c : Client) (endpoint : String) (params : List (String × String)) :
    Except String String :=
  match parseURL (c.baseURL ++ "/" ++ trimLeftSlashes endpoint) with
  | none => .error "net/url: invalid URL"
  | some u =>
    .ok (urlString { u with rawQuery := encodeValues (buildQuery c u.rawQuery params) })

/-! ## Requests -/

/-- The HTTP request an endpoint method hands to doRequest; the network
round trip itself is outside the model. -/
structure Request where
  method : String
  url : String
  headers : List (String × String)
  body : String
deriving DecidableEq

/-- Client.Get up to the request it issues: build the URL and form a
GET request with no body. -/
def GetRequest (c : Client) (endpoint : String)
    (params : List (String × String)) : Except String Request :=
  (buildURL c endpoint params).map (fun u => ⟨"GET", u, [], ""⟩)

/-- Client.PlateDecoder: a pure passthrough to Get on v2/platedecoder. -/
def PlateDecoder (c : Client) (params : List (String × String)) :
    Except String Request :=
  GetRequest c "v2/platedecoder" params

/-! ## strings.TrimSpace (unicode.IsSpace) -/

/-- Go unicode.IsSpace: the Latin-1 spaces and the White_Space
code points. -/
def isGoSpace (c : Char) : Bool :=
  c == ' ' || c == '\t' || c == '\n' || c == '\x0B' || c == '\x0C' || c == '\r' ||
  c.toNat == 0x85 || c.toNat == 0xA0 || c.toNat == 0x1680 ||
  (decide (0x2000 ≤ c.toNat) && decide (c.toNat ≤ 0x200A)) ||
  c.toNat == 0x2028 || c.toNat == 0x2029 || c.toNat == 0x202F ||
  c.toNat == 0x205F || c.toNat == 0x3000

/-- Go strings.TrimSpace. -/
def trimSpace (s : String) : String :=
  ⟨((s.data.dropWhile isGoSpace).reverse.dropWhile isGoSpace).reverse⟩

/-! ## encoding/json: marshalling the image body -/

/-- Go encoding/json appendString with the default HTML escaping of
json.NewEncoder: quote and backslash are backslash-escaped, the three
HTML characters and U+2028/U+2029 become \u escapes with lower-case
hex, control characters become \n, \r, \t or \u00XX. -/
def jsonEscapeChar (c : Char) : List Char :=
  if c == '"' then ['\\', '"']
  else if c == '\\' then ['\\', '\\']
  else if c == '<' || c == '>' || c == '&' then
    ['\\', 'u', '0', '0', hexDigitLower (c.toNat / 16), hexDigitLower (c.toNat % 16)]
  else if c.toNat < 0x20 then
    if c == '\n' then ['\\', 'n']
    else if c == '\r' then ['\\', 'r']
    else if c == '\t' then ['\\', 't']
    else ['\\', 'u', '0', '0', hexDigitLower (c.toNat / 16), hexDigitLower (c.toNat % 16)]
  else if c.toNat == 0x2028 || c.toNat == 0x2029 then
    ['\\', 'u', '2', '0', '2', hexDigitLower (c.toNat % 16)]
  else [c]

/-- Go json string literal for a Go string. -/
def goJSONQuote (s : String) : String :=
  "\"" ++ (⟨s.data.flatMap jsonEscapeChar⟩ : String) ++ "\""

/-- json.NewEncoder(buf).Encode of the one-field map with key image:
json.Marshal of the map (its single key needs no sorting) followed by
the newline Encode appends. -/
def encodeImageBody (u : String) : String :=
  "\x7b\"image\":" ++ goJSONQuote u ++ "\x7d\n"

/-! ## The POST path and the image endpoints -/

/-- Client.postJSON up to the request it issues: build the URL with no
caller params, attach the encoded body and the JSON content type. -/
def postJSON (c : Client) (endpoint : String) (body : String) :
    Except String Request :=
  (buildURL c endpoint []).map
    (fun u => ⟨"POST", u, [("Content-Type", "application/json")], body⟩)

/-- Client.PlateImageRecognition up to the request it issues; in both
variants the blank check precedes everything else (the deprecated
variant panics with the same message, modelled as the error value). -/
def PlateImageRecognition (c : Client) (imageURL : String) :
    Except String Request :=
  if trimSpace imageURL = "" then .error "image URL required"
  else postJSON c "platerecognition" (encodeImageBody imageURL)

/-- Client.VinOCR up to the request it issues. -/
def VinOCR (c : Client) (imageURL : String) : Except String Request :=
  if trimSpace imageURL = "" then .error "image URL required"
  else postJSON c "v1/vinocr" (encodeImageBody imageURL)

/-! ## encoding/json: unmarshalling into a generic map

json.Unmarshal(body, (map[string]any)) is modelled by a recursive
descent recogniser of the JSON grammar Go accepts.  Numbers are kept as
their lexemes (their float64 value plays no role in any claim; the
float64 range error Go gives to astronomically large exponents is not
modelled).  Object member lists keep every pair in input order; Go's
map semantics (last duplicate wins) only matters to lookups, which no
claim performs.  Recursion is bounded by a fuel argument kept
generously above the maximal possible nesting of the input; Go's
nesting cap of 10000 is not modelled. -/

/-- Generic JSON values (the any values of the decoded map). -/
inductive JsonValue where
  | null : JsonValue
  | bool : Bool → JsonValue
  | num : String → JsonValue
  | str : String → JsonValue
  | arr : List JsonValue → JsonValue
  | obj : List (String × JsonValue) → JsonValue

/-- Whitespace the JSON scanner skips. -/
def skipJsonWs (l : List Char) : List Char :=
  l.dropWhile (fun c => c == ' ' || c == '\t' || c == '\n' || c == '\r')

/-- Body of a JSON string literal after the opening quote: returns the
decoded characters and the input after the closing quote.  Raw control
characters are invalid; escapes are the JSON ones; a \u escape needs
four hex digits (lone surrogates decode to the replacement behaviour of
Char.ofNat; like Go, they are accepted). -/
def parseStringBody : List Char → Option (List Char × List Char)
  | [] => none
  | '"' :: rest => some ([], rest)
  | '\\' :: esc =>
    match esc with
    | '"' :: r => (parseStringBody r).map (fun p => ('"' :: p.1, p.2))
    | '\\' :: r => (parseStringBody r).map (fun p => ('\\' :: p.1, p.2))
    | '/' :: r => (parseStringBody r).map (fun p => ('/' :: p.1, p.2))
    | 'b' :: r => (parseStringBody r).map (fun p => ('\x08' :: p.1, p.2))
    | 'f' :: r => (parseStringBody r).map (fun p => ('\x0C' :: p.1, p.2))
    | 'n' :: r => (parseStringBody r).map (fun p => ('\n' :: p.1, p.2))
    | 'r' :: r => (parseStringBody r).map (fun p => ('\r' :: p.1, p.2))
    | 't' :: r => (parseStringBody r).map (fun p => ('\t' :: p.1, p.2))
    | 'u' :: h1 :: h2 :: h3 :: h4 :: r =>
      match hexVal h1, hexVal h2, hexVal h3, hexVal h4 with
      | some a, some b, some c, some d =>
        (parseStringBody r).map
          (fun p => (Char.ofNat (4096 * a + 256 * b + 16 * c + d) :: p.1, p.2))
      | _, _, _, _ => none
    | _ => none
  | c :: rest =>
    if c.toNat < 0x20 then none
    else (parseStringBody rest).map (fun p => (c :: p.1, p.2))

/-- Exponent part of a JSON number (acc is the lexeme so far). -/
def numExpPart (acc : List Char) (l : List Char) : Option (List Char × List Char) :=
  match l with
  | e :: r =>
    if e = 'e' ∨ e = 'E' then
      let (sg, r2) : List Char × List Char :=
        match r with
        | '+' :: rr => (['+'], rr)
        | '-' :: rr => (['-'], rr)
        | _ => ([], r)
      let ds := r2.takeWhile Char.isDigit
      if ds.isEmpty then none
      else some (acc ++ e :: sg ++ ds, r2.dropWhile Char.isDigit)
    else some (acc, l)
  | [] => some (acc, [])

/-- Fraction part of a JSON number. -/
def numFracPart (acc : List Char) (l : List Char) : Option (List Char × List Char) :=
  match l with
  | '.' :: r =>
    let ds := r.takeWhile Char.isDigit
    if ds.isEmpty then none
    else numExpPart (acc ++ '.' :: ds) (r.dropWhile Char.isDigit)
  | _ => numExpPart acc l

/-- A JSON number lexeme: optional minus, an integer part without
leading zeros, optional fraction and exponent. -/
def parseNumber (l : List Char) : Option (List Char × List Char) :=
  let (sign, l1) : List Char × List Char :=
    match l with
    | '-' :: r => (['-'], r)
    | _ => ([], l)
  match l1 with
  | [] => none
  | c :: r =>
    if c = '0' then numFracPart (sign ++ ['0']) r
    else if c.isDigit then
      numFracPart (sign ++ c :: r.takeWhile Char.isDigit) (r.dropWhile Char.isDigit)
    else none

/-- The mutual states of the recursive descent: a value, the inside of
an object just after its brace, the members of an object, the inside of
an array just after its bracket, the elements of an array. -/
inductive JMode where
  | value : JMode
  | members0 : JMode
  | membersRest : JMode
  | elems0 : JMode
  | elemsRest : JMode

/-- The recursive descent over the JSON grammar; structural recursion
on the fuel keeps every call kernel-reducible. -/
def parseJ : Nat → JMode → List Char → Option (JsonValue × List Char)
  | 0, _, _ => none
  | f + 1, .value, l =>
    match skipJsonWs l with
    | '\x7b' :: r => parseJ f .members0 r
    | '[' :: r => parseJ f .elems0 r
    | '"' :: r => (parseStringBody r).map (fun p => (.str ⟨p.1⟩, p.2))
    | 't' :: 'r' :: 'u' :: 'e' :: r => some (.bool true, r)
    | 'f' :: 'a' :: 'l' :: 's' :: 'e' :: r => some (.bool false, r)
    | 'n' :: 'u' :: 'l' :: 'l' :: r => some (.null, r)
    | l' => (parseNumber l').map (fun p => (.num ⟨p.1⟩, p.2))
  | f + 1, .members0, l =>
    match skipJsonWs l with
    | '\x7d' :: r => some (.obj [], r)
    | _ => parseJ f .membersRest l
  | f + 1, .membersRest, l =>
    match skipJsonWs l with
    | '"' :: r =>
      match parseStringBody r with
      | none => none
      | some (k, r1) =>
        match skipJsonWs r1 with
        | ':' :: r2 =>
          match parseJ f .value r2 with
          | none => none
          | some (v, r3) =>
            match skipJsonWs r3 with
            | ',' :: r4 =>
              match parseJ f .membersRest r4 with
              | some (.obj ms, r5) => some (.obj ((⟨k⟩, v) :: ms), r5)
              | _ => none
            | '\x7d' :: r4 => some (.obj [(⟨k⟩, v)], r4)
            | _ => none
        | _ => none
    | _ => none
  | f + 1, .elems0, l =>
    match skipJsonWs l with
    | ']' :: r => some (.arr [], r)
    | _ => parseJ f .elemsRest l
  | f + 1, .elemsRest, l =>
    match parseJ f .value l with
    | none => none
    | some (v, r) =>
      match skipJsonWs r with
      | ',' :: r2 =>
        match parseJ f .elemsRest r2 with
        | some (.arr vs, r3) => some (.arr (v :: vs), r3)
        | _ => none
      | ']' :: r2 => some (.arr [v], r2)
      | _ => none

/-- json.Unmarshal(body, (map[string]any)): the body must be one JSON
value followed by nothing but whitespace; a JSON null leaves the map
nil (modelled as the empty list, which no claim distinguishes); any
other non-object value is a type error. -/
def jsonUnmarshalMap (s : String) : Except String (List (String × JsonValue)) :=
  match parseJ (4 * s.data.length + 8) .value s.data with
  | none => .error "invalid JSON"
  | some (v, rest) =>
    if skipJsonWs rest = [] then
      match v with
      | .obj ms => .ok ms
      | .null => .ok []
      | _ => .error "cannot unmarshal value into map"
    else .error "invalid character after top-level value"

/-! ## doRequest in both variants -/

/-- The HTTP response handed back by the transport (body already fully
read; the read itself is outside the model). -/
structure Response where
  statusCode : Nat
  body : String

/-- doRequest of the error-returning variant (main.go): status check
with the exact error format of the source, then the empty-body case,
then JSON decoding (the decode message of the wrapped Go error is
modelled by the recogniser's message). -/
def doRequest (resp : Response) : Except String (List (String × JsonValue)) :=
  if resp.statusCode < 200 ∨ 300 ≤ resp.statusCode then
    .error ("carsxe: non-2xx response (" ++ Nat.repr resp.statusCode ++ "): " ++ resp.body)
  else if resp.body = "" then .ok []
  else
    match jsonUnmarshalMap resp.body with
    | .error e => .error ("carsxe: decode error: " ++ e ++ " (body=" ++ resp.body ++ ")")
    | .ok m => .ok m

/-- doRequest of the deprecated panic-style variant: it performs no
status-code check at all; panics are modelled as error values. -/
def doRequestDeprecated (resp : Response) :
    Except String (List (String × JsonValue)) :=
  if resp.body = "" then .ok []
  else
    match jsonUnmarshalMap resp.body with
    | .error e => .error ("Failed to decode JSON: " ++ e ++ " (body=" ++ resp.body ++ ")")
    | .ok m => .ok m

/-! ## Properties of the string order -/

theorem char_eq_of_toNat_eq {x y : Char} (h : x.toNat = y.toNat) : x = y :=
  Char.ext (UInt32.ext h)

theorem charListLe_total : ∀ a b : List Char, charListLe a b = true ∨ charListLe b a = true
  | [], b => Or.inl (by cases b <;> rfl)
  | _ :: _, [] => Or.inr rfl
  | x :: xs, y :: ys => by
    by_cases hxy : x = y
    · subst hxy
      rcases charListLe_total xs ys with h | h
      · exact Or.inl (by simpa [charListLe] using h)
      · exact Or.inr (by simpa [charListLe] using h)
    · have hyx : ¬ y = x := fun e => hxy e.symm
      rcases Nat.lt_trichotomy x.toNat y.toNat with h | h | h
      · exact Or.inl (by simp [charListLe, hxy, h])
      · exact absurd (char_eq_of_toNat_eq h) hxy
      · exact Or.inr (by simp [charListLe, hyx, h])

theorem charListLe_trans : ∀ a b c : List Char,
    charListLe a b = true → charListLe b c = true → charListLe a c = true
  | [], b, c, _, _ => by cases c <;> rfl
  | _ :: _, [], _, h1, _ => by simp [charListLe] at h1
  | _ :: _, _ :: _, [], _, h2 => by simp [charListLe] at h2
  | x :: xs, y :: ys, z :: zs, h1, h2 => by
    by_cases hxy : x = y <;> by_cases hyz : y = z
    · subst hxy; subst hyz
      simp only [charListLe, if_pos rfl] at h1 h2 ⊢
      exact charListLe_trans xs ys zs h1 h2
    · subst hxy
      simp only [charListLe, if_pos rfl] at h1
      simpa [charListLe, hyz] using h2
    · subst hyz
      simp only [charListLe, if_pos rfl] at h2
      simpa [charListLe, hxy] using h1
    · simp only [charListLe, if_neg hxy, decide_eq_true_eq] at h1
      simp only [charListLe, if_neg hyz, decide_eq_true_eq] at h2
      have hlt : x.toNat < z.toNat := Nat.lt_trans h1 h2
      have hxz : ¬ x = z := fun e => by rw [e] at hlt; omega
      simp [charListLe, hxz, hlt]

theorem charListLe_antisymm : ∀ a b : List Char,
    charListLe a b = true → charListLe b a = true → a = b
  | [], [], _, _ => rfl
  | [], _ :: _, _, h2 => by simp [charListLe] at h2
  | _ :: _, [], h1, _ => by simp [charListLe] at h1
  | x :: xs, y :: ys, h1, h2 => by
    by_cases hxy : x = y
    · subst hxy
      simp only [charListLe, if_pos rfl] at h1 h2
      rw [charListLe_antisymm xs ys h1 h2]
    · have hyx : ¬ y = x := fun e => hxy e.symm
      simp only [charListLe, if_neg hxy, decide_eq_true_eq] at h1
      simp only [charListLe, if_neg hyx, decide_eq_true_eq] at h2
      omega

instance : IsTotal String (fun a b => strLe a b = true) :=
  ⟨fun a b => charListLe_total a.data b.data⟩

instance : IsTrans String (fun a b => strLe a b = true) :=
  ⟨fun a b c => charListLe_trans a.data b.data c.data⟩

instance : IsAntisymm String (fun a b => strLe a b = true) :=
  ⟨fun a b h1 h2 => String.ext (charListLe_antisymm a.data b.data h1 h2)⟩

/-! ## Properties of the Values model -/

theorem addParams_eq_append : ∀ (params : List (String × String)) (q : Values),
    addParams q params = q ++ params.filter (fun p => p.2 != "")
  | [], q => by simp [addParams]
  | p :: rest, q => by
    rw [addParams, List.foldl_cons, List.filter_cons]
    by_cases h : (p.2 != "") = true
    · rw [if_pos h, if_pos h]
      have ih := addParams_eq_append rest (valuesAdd q p.1 p.2)
      rw [addParams] at ih
      rw [ih, valuesAdd, List.append_assoc, List.singleton_append]
    · rw [if_neg h, if_neg h]
      have ih := addParams_eq_append rest q
      rw [addParams] at ih
      rw [ih]

theorem keyValues_append (a b : Values) (k : String) :
    keyValues (a ++ b) k = keyValues a k ++ keyValues b k := by
  simp [keyValues, List.filter_append]

theorem keyValues_set_self (q : Values) (k v : String) :
    keyValues (valuesSet q k v) k = [v] := by
  rw [valuesSet, keyValues_append]
  have h1 : keyValues (q.filter (fun p => p.1 != k)) k = [] := by
    rw [keyValues, List.filter_filter]
    have : ∀ p : String × String, ((p.1 == k) && (p.1 != k)) = false := by
      intro p; by_cases h : p.1 = k <;> simp [h]
    simp [this]
  have h2 : keyValues [(k, v)] k = [v] := by simp [keyValues]
  rw [h1, h2, List.nil_append]

theorem keyValues_set_other (q : Values) {k k' : String} (v : String) (h : k ≠ k') :
    keyValues (valuesSet q k' v) k = keyValues q k := by
  rw [valuesSet, keyValues_append]
  have h2 : keyValues [(k', v)] k = [] := by
    have hne : ((k', v).1 == k) = false := beq_eq_false_iff_ne.mpr fun e => h e.symm
    simp [keyValues, List.filter_cons, hne]
  rw [h2, List.append_nil, keyValues, keyValues, List.filter_filter]
  apply congrArg
  apply List.filter_congr
  intro p _
  by_cases hp : p.1 = k
  · simp [hp, h]
  · simp [hp]

theorem mem_keyValues {q : Values} {k v : String} :
    v ∈ keyValues q k ↔ (k, v) ∈ q := by
  constructor
  · intro h
    rw [keyValues] at h
    rcases List.mem_map.mp h with ⟨p, hp, hv⟩
    rcases List.mem_filter.mp hp with ⟨hq, hk⟩
    have : p = (k, v) := by
      rcases p with ⟨a, b⟩
      simp only [beq_iff_eq] at hk
      simp only at hv
      rw [hk, hv]
    rwa [this] at hq
  · intro h
    rw [keyValues]
    exact List.mem_map.mpr ⟨(k, v), List.mem_filter.mpr ⟨h, by simp⟩, rfl⟩

theorem mem_sortedUniqueKeys {q : Values} {k : String} :
    k ∈ sortedUniqueKeys q ↔ k ∈ q.map Prod.fst := by
  rw [sortedUniqueKeys, (List.perm_insertionSort _ _).mem_iff, uniqueKeys]
  exact List.mem_dedup

theorem sortedUniqueKeys_eq_of_perm {q1 q2 : Values} (h : List.Perm q1 q2) :
    sortedUniqueKeys q1 = sortedUniqueKeys q2 :=
  List.eq_of_perm_of_sorted
    ((List.perm_insertionSort _ _).trans (((h.map Prod.fst).dedup).trans
      (List.perm_insertionSort _ _).symm))
    (List.sorted_insertionSort _ _) (List.sorted_insertionSort _ _)

theorem mem_queryEntries {q : Values} {k v : String} :
    (k, v) ∈ queryEntries q ↔ (k, v) ∈ q := by
  rw [queryEntries]
  constructor
  · intro h
    rcases List.mem_flatMap.mp h with ⟨k', _, hm⟩
    rcases List.mem_map.mp hm with ⟨v', hv', he⟩
    cases he
    exact mem_keyValues.mp hv'
  · intro h
    apply List.mem_flatMap.mpr
    refine ⟨k, ?_, List.mem_map.mpr ⟨v, mem_keyValues.mpr h, rfl⟩⟩
    exact mem_sortedUniqueKeys.mpr (List.mem_map.mpr ⟨(k, v), h, rfl⟩)

theorem filter_key_length_le_one {l : List (String × String)} {k : String}
    (h : (l.map Prod.fst).Nodup) : (l.filter (fun p => p.1 == k)).length ≤ 1 := by
  induction l with
  | nil => simp
  | cons p rest ih =>
    rw [List.map_cons, List.nodup_cons] at h
    rw [List.filter_cons]
    by_cases hp : (p.1 == k) = true
    · rw [if_pos hp]
      have hpk : p.1 = k := beq_iff_eq.mp hp
      have hnil : rest.filter (fun q => q.1 == k) = [] := by
        rw [List.filter_eq_nil_iff]
        intro q hq
        simp only [beq_iff_eq]
        intro e
        exact h.1 (List.mem_map.mpr ⟨q, hq, by rw [e, hpk]⟩)
      rw [hnil]
      simp
    · rw [if_neg hp]
      exact ih h.2

theorem perm_eq_of_length_le_one {α : Type} {a b : List α}
    (hp : List.Perm a b) (h : a.length ≤ 1) : a = b := by
  cases a with
  | nil => exact (List.Perm.eq_nil hp.symm).symm
  | cons x t =>
    cases t with
    | nil => exact (List.perm_singleton.mp hp.symm).symm
    | cons y t2 => simp at h

theorem keyValues_eq_of_perm {l1 l2 : List (String × String)}
    (hnd : (l1.map Prod.fst).Nodup) (hp : List.Perm l1 l2) (k : String) :
    keyValues l1 k = keyValues l2 k := by
  rw [keyValues, keyValues]
  exact congrArg _ (perm_eq_of_length_le_one (hp.filter _) (filter_key_length_le_one hnd))

theorem queryEntries_congr {q1 q2 : Values}
    (hk : sortedUniqueKeys q1 = sortedUniqueKeys q2)
    (hv : ∀ k, keyValues q1 k = keyValues q2 k) :
    queryEntries q1 = queryEntries q2 := by
  rw [queryEntries, queryEntries, hk]
  have : (fun k => (keyValues q1 k).map (fun v => (k, v)))
      = (fun k => (keyValues q2 k).map (fun v => (k, v))) :=
    funext fun k => by rw [hv k]
  rw [this]

theorem queryEntries_buildQuery_perm (c : Client) (raw : String)
    {l1 l2 : List (String × String)} (hnd : (l1.map Prod.fst).Nodup)
    (hp : List.Perm l1 l2) :
    queryEntries (buildQuery c raw l1) = queryEntries (buildQuery c raw l2) := by
  rw [buildQuery, buildQuery, addParams_eq_append, addParams_eq_append]
  have hF : List.Perm (l1.filter (fun p => p.2 != "")) (l2.filter (fun p => p.2 != "")) :=
    hp.filter _
  have hFnd : ((l1.filter (fun p => p.2 != "")).map Prod.fst).Nodup :=
    hnd.sublist ((List.filter_sublist l1).map Prod.fst)
  apply queryEntries_congr
  · exact sortedUniqueKeys_eq_of_perm (hF.append_left _)
  · intro k
    rw [keyValues_append, keyValues_append, keyValues_eq_of_perm hFnd hF k]

theorem buildURL_eq_of_params_perm (c : Client) (e : String)
    {l1 l2 : List (String × String)} (hnd : (l1.map Prod.fst).Nodup)
    (hp : List.Perm l1 l2) : buildURL c e l1 = buildURL c e l2 := by
  have hq : ∀ raw, encodeValues (buildQuery c raw l1) = encodeValues (buildQuery c raw l2) :=
    fun raw => by
      rw [encodeValues, encodeValues, queryEntries_buildQuery_perm c raw hnd hp]
  rw [buildURL, buildURL]
  cases parseURL (c.baseURL ++ "/" ++ trimLeftSlashes e) with
  | none => rfl
  | some u => simp only [hq]

theorem encodeValues_ne_empty {q : Values} {p : String × String}
    (h : p ∈ queryEntries q) : encodeValues q ≠ "" := by
  intro he
  rw [encodeValues] at he
  cases hql : queryEntries q with
  | nil => rw [hql] at h; exact absurd h (List.not_mem_nil p)
  | cons a rest =>
    rw [hql, List.map_cons, joinAmp] at he
    have hlen := congrArg String.length he
    rw [String.length_append, String.length_append, String.length_append] at hlen
    have h1 : ("=" : String).length = 1 := rfl
    have h0 : ("" : String).length = 0 := rfl
    omega

theorem keyValues_buildQuery_key (c : Client) (raw : String)
    (params : List (String × String)) :
    keyValues (buildQuery c raw params) "key"
      = c.apiKey :: keyValues (params.filter (fun p => p.2 != "")) "key" := by
  rw [buildQuery, addParams_eq_append, keyValues_append,
    keyValues_set_other _ _ (by decide), keyValues_set_self, List.singleton_append]

theorem keyValues_buildQuery_source (c : Client) (raw : String)
    (params : List (String × String)) :
    keyValues (buildQuery c raw params) "source"
      = c.source :: keyValues (params.filter (fun p => p.2 != "")) "source" := by
  rw [buildQuery, addParams_eq_append, keyValues_append,
    keyValues_set_self, List.singleton_append]

theorem mem_valuesSet_of_ne {q : Values} {k k' : String} (v w : String)
    (h : k ≠ k') : ((k, v) ∈ valuesSet q k' w) ↔ (k, v) ∈ q := by
  rw [valuesSet, List.mem_append]
  constructor
  · rintro (hm | hm)
    · exact (List.mem_filter.mp hm).1
    · rcases List.mem_singleton.mp hm with he
      exact absurd (congrArg Prod.fst he) h
  · intro hm
    exact Or.inl (List.mem_filter.mpr ⟨hm, by simp [h]⟩)

theorem trimSpace_eq_empty_of_all {s : String}
    (h : ∀ ch ∈ s.data, isGoSpace ch = true) : trimSpace s = "" := by
  rw [trimSpace]
  have h1 : s.data.dropWhile isGoSpace = [] := List.dropWhile_eq_nil_iff.mpr h
  rw [h1]
  rfl

theorem buildURL_of_parse (c : Client) (e : String)
    (params : List (String × String)) (u : GoURL)
    (h : parseURL (c.baseURL ++ "/" ++ trimLeftSlashes e) = some u) :
    buildURL c e params
      = .ok (urlString { u with rawQuery := encodeValues (buildQuery c u.rawQuery params) }) := by
  rw [buildURL, h]

theorem urlString_no_frag (pre E : String) (hne : E ≠ "") :
    urlString ⟨pre, E, none⟩ = pre ++ "?" ++ E := by
  rw [urlString]
  simp only
  rw [if_neg hne, String.append_empty, ← String.append_assoc]

/-! ## The claims -/

/-- C1: for every endpoint string and every parameter mapping, buildURL
(whose URL construction is shared by both implementation variants)
drops parameters whose value is the empty string: the built URL is
identical to the one built from the mapping with all empty-valued
entries removed, so empty values are never sent. -/
theorem buildURL_drops_empty_values (c : Client) (e : String)
    (params : List (String × String)) :
    buildURL c e params = buildURL c e (params.filter (fun p => p.2 != "")) := by
  have hq : ∀ raw, buildQuery c raw params
      = buildQuery c raw (params.filter (fun p => p.2 != "")) := by
    intro raw
    rw [buildQuery, buildQuery, addParams_eq_append, addParams_eq_append]
    have hf : (params.filter (fun p => p.2 != "")).filter (fun p => p.2 != "")
        = params.filter (fun p => p.2 != "") := by
      rw [List.filter_filter]
      exact List.filter_congr (fun a _ => Bool.and_self _)
    rw [hf]
  rw [buildURL, buildURL]
  cases parseURL (c.baseURL ++ "/" ++ trimLeftSlashes e) with
  | none => rfl
  | some u => simp only [hq]

/-- C2 counterexample: the claim's mechanism (the builder overwrites a
caller-supplied key or source parameter, or rejects the collision) is
false: buildURL succeeds on a colliding mapping and the caller's values
appear in the built query alongside the client's own. -/
theorem buildURL_collision_forwarded_cx :
    buildURL ⟨"K", "https://api.carsxe.com", "go"⟩ "specs"
        [("key", "EVIL"), ("source", "BAD")]
      = .ok "https://api.carsxe.com/specs?key=K&key=EVIL&source=go&source=BAD" ∧
    ("key", "EVIL") ∈ queryEntries (buildQuery ⟨"K", "https://api.carsxe.com", "go"⟩ ""
        [("key", "EVIL"), ("source", "BAD")]) ∧
    ("source", "BAD") ∈ queryEntries (buildQuery ⟨"K", "https://api.carsxe.com", "go"⟩ ""
        [("key", "EVIL"), ("source", "BAD")]) :=
  ⟨rfl, by decide, by decide⟩

/-- C2 (amended): key and source are always present with the client's
values and always head the value slices of their names, because Set
runs before the caller's parameters are appended; a caller-supplied
parameter of the same name is neither rejected nor overwritten but
forwarded as an additional entry after the client's, so it cannot
displace the client's value. -/
theorem buildURL_key_source_present (c : Client) (e : String)
    (params : List (String × String)) (u : GoURL)
    (h : parseURL (c.baseURL ++ "/" ++ trimLeftSlashes e) = some u) :
    buildURL c e params
        = .ok (urlString { u with rawQuery := encodeValues (buildQuery c u.rawQuery params) }) ∧
      ("key", c.apiKey) ∈ queryEntries (buildQuery c u.rawQuery params) ∧
      (keyValues (buildQuery c u.rawQuery params) "key").head? = some c.apiKey ∧
      ("source", c.source) ∈ queryEntries (buildQuery c u.rawQuery params) ∧
      (keyValues (buildQuery c u.rawQuery params) "source").head? = some c.source := by
  refine ⟨buildURL_of_parse c e params u h, ?_, ?_, ?_, ?_⟩
  · refine mem_queryEntries.mpr (mem_keyValues.mp ?_)
    rw [keyValues_buildQuery_key]
    exact List.mem_cons_self _ _
  · rw [keyValues_buildQuery_key]
    rfl
  · refine mem_queryEntries.mpr (mem_keyValues.mp ?_)
    rw [keyValues_buildQuery_source]
    exact List.mem_cons_self _ _
  · rw [keyValues_buildQuery_source]
    rfl

/-- C2 witness: the amended theorem at a concrete client, endpoint and
colliding mapping. -/
theorem buildURL_key_source_present_witness :
    parseURL ((⟨"K", "https://api.carsxe.com", "go"⟩ : Client).baseURL ++ "/"
        ++ trimLeftSlashes "specs") = some ⟨"https://api.carsxe.com/specs", "", none⟩ ∧
      (keyValues (buildQuery ⟨"K", "https://api.carsxe.com", "go"⟩ "" [("key", "EVIL")])
        "key").head? = some "K" :=
  ⟨rfl, (buildURL_key_source_present ⟨"K", "https://api.carsxe.com", "go"⟩ "specs"
    [("key", "EVIL")] ⟨"https://api.carsxe.com/specs", "", none⟩ rfl).2.2.1⟩

/-- C3: for every image URL argument consisting only of whitespace
(including the empty string), PlateImageRecognition and VinOCR fail
with the message of the source before building any URL or issuing any
network call; the deprecated variant panics with the same message at
the same point. -/
theorem imageEndpoints_reject_blank (c : Client) (U : String)
    (h : ∀ ch ∈ U.data, isGoSpace ch = true) :
    PlateImageRecognition c U = .error "image URL required" ∧
      VinOCR c U = .error "image URL required" := by
  have ht : trimSpace U = "" := trimSpace_eq_empty_of_all h
  constructor
  · rw [PlateImageRecognition, if_pos ht]
  · rw [VinOCR, if_pos ht]

/-- C3 witness: a whitespace-only image URL at a concrete client. -/
theorem imageEndpoints_reject_blank_witness :
    (∀ ch ∈ (" \t" : String).data, isGoSpace ch = true) ∧
      PlateImageRecognition ⟨"K", "https://api.carsxe.com", "go"⟩ " \t"
        = .error "image URL required" ∧
      VinOCR ⟨"K", "https://api.carsxe.com", "go"⟩ " \t"
        = .error "image URL required" :=
  ⟨by decide,
    (imageEndpoints_reject_blank ⟨"K", "https://api.carsxe.com", "go"⟩ " \t" (by decide)).1,
    (imageEndpoints_reject_blank ⟨"K", "https://api.carsxe.com", "go"⟩ " \t" (by decide)).2⟩

/-- C4 counterexample: the deprecated panic-style variant performs no
status check, so a 404 response with a decodable JSON body is returned
as a mapping instead of raising any fault, refuting the claim for that
variant. -/
theorem doRequestDeprecated_non2xx_cx :
    doRequestDeprecated ⟨404, "\x7b\"error\":\"nf\"\x7d"⟩
      = .ok [("error", JsonValue.str "nf")] := rfl

/-- C4 (amended): in the error-returning variant every non-2xx response
yields the error of the source identifying the status code and the
body; the deprecated variant checks nothing and is covered by the
counterexample. -/
theorem doRequest_non2xx (resp : Response)
    (h : resp.statusCode < 200 ∨ 300 ≤ resp.statusCode) :
    doRequest resp = .error ("carsxe: non-2xx response ("
      ++ Nat.repr resp.statusCode ++ "): " ++ resp.body) := by
  rw [doRequest, if_pos h]

/-- C4 witness: the amended theorem at a concrete 404 response. -/
theorem doRequest_non2xx_witness :
    ((404 : Nat) < 200 ∨ 300 ≤ (404 : Nat)) ∧
      doRequest ⟨404, "nf"⟩ = .error "carsxe: non-2xx response (404): nf" :=
  ⟨Or.inr (by decide), (doRequest_non2xx ⟨404, "nf"⟩ (Or.inr (by decide))).trans rfl⟩

/-- C5: in both variants a 2xx response with an empty body yields the
empty mapping and no error. -/
theorem doRequest_empty_body (resp : Response)
    (h2 : 200 ≤ resp.statusCode ∧ resp.statusCode < 300) (hb : resp.body = "") :
    doRequest resp = .ok [] ∧ doRequestDeprecated resp = .ok [] := by
  have hn : ¬ (resp.statusCode < 200 ∨ 300 ≤ resp.statusCode) := by omega
  constructor
  · rw [doRequest, if_neg hn, if_pos hb]
  · rw [doRequestDeprecated, if_pos hb]

/-- C5 witness: a concrete 204 response with an empty body. -/
theorem doRequest_empty_body_witness :
    ((200 : Nat) ≤ 204 ∧ (204 : Nat) < 300) ∧
      doRequest ⟨204, ""⟩ = .ok [] ∧ doRequestDeprecated ⟨204, ""⟩ = .ok [] :=
  ⟨⟨by decide, by decide⟩, doRequest_empty_body ⟨204, ""⟩ ⟨by decide, by decide⟩ rfl⟩

/-- C6: in both variants a 2xx response with a non-empty body that is
not valid JSON for a string-keyed mapping yields an error whose message
contains the raw body text. -/
theorem doRequest_malformed_json (resp : Response) (e : String)
    (h2 : 200 ≤ resp.statusCode ∧ resp.statusCode < 300) (hb : resp.body ≠ "")
    (hj : jsonUnmarshalMap resp.body = .error e) :
    (∃ pre post, doRequest resp = .error (pre ++ resp.body ++ post)) ∧
      (∃ pre post, doRequestDeprecated resp = .error (pre ++ resp.body ++ post)) := by
  have hn : ¬ (resp.statusCode < 200 ∨ 300 ≤ resp.statusCode) := by omega
  constructor
  · exact ⟨"carsxe: decode error: " ++ e ++ " (body=", ")",
      by rw [doRequest, if_neg hn, if_neg hb, hj]⟩
  · exact ⟨"Failed to decode JSON: " ++ e ++ " (body=", ")",
      by rw [doRequestDeprecated, if_neg hb, hj]⟩

/-- C6 witness: a concrete 200 response whose body is a lone opening
brace. -/
theorem doRequest_malformed_json_witness :
    (((200 : Nat) ≤ 200 ∧ (200 : Nat) < 300) ∧ ("\x7b" : String) ≠ "" ∧
        jsonUnmarshalMap "\x7b" = .error "invalid JSON") ∧
      (∃ pre post, doRequest ⟨200, "\x7b"⟩ = .error (pre ++ "\x7b" ++ post)) ∧
      (∃ pre post, doRequestDeprecated ⟨200, "\x7b"⟩ = .error (pre ++ "\x7b" ++ post)) :=
  ⟨⟨⟨by decide, by decide⟩, by decide, rfl⟩,
    doRequest_malformed_json ⟨200, "\x7b"⟩ "invalid JSON" ⟨by decide, by decide⟩
      (by decide) rfl⟩

/-- C7: for a client with arbitrary key, source and base URL (the base
URL parsing to a plain path and an empty query), PlateDecoder on the
example mapping builds a GET request to baseURL/v2/platedecoder whose
query holds exactly key, source, plate=7XER187, state=CA and
country=US, in some order, whatever order the mapping is iterated in. -/
theorem plateDecoder_example (c : Client) (l : List (String × String))
    (hB : parseURL (c.baseURL ++ "/" ++ trimLeftSlashes "v2/platedecoder")
        = some ⟨c.baseURL ++ "/v2/platedecoder", "", none⟩)
    (hl : List.Perm l [("plate", "7XER187"), ("state", "CA"), ("country", "US")]) :
    PlateDecoder c l = .ok ⟨"GET",
        c.baseURL ++ "/v2/platedecoder?" ++ encodeValues (buildQuery c "" l), [], ""⟩ ∧
      List.Perm (queryEntries (buildQuery c "" l))
        [("key", c.apiKey), ("source", c.source), ("plate", "7XER187"),
          ("state", "CA"), ("country", "US")] := by
  have hnd : (l.map Prod.fst).Nodup := by
    rw [(hl.map Prod.fst).nodup_iff]
    decide
  have hentries : queryEntries (buildQuery c "" l)
      = queryEntries (buildQuery c ""
          [("plate", "7XER187"), ("state", "CA"), ("country", "US")]) :=
    queryEntries_buildQuery_perm c "" hnd hl
  have hcanon : queryEntries (buildQuery c ""
        [("plate", "7XER187"), ("state", "CA"), ("country", "US")])
      = [("country", "US"), ("key", c.apiKey), ("plate", "7XER187"),
          ("source", c.source), ("state", "CA")] := rfl
  constructor
  · have hmem : ("key", c.apiKey) ∈ queryEntries (buildQuery c "" l) := by
      rw [hentries, hcanon]
      exact List.mem_cons_of_mem _ (List.mem_cons_self _ _)
    have hne : encodeValues (buildQuery c "" l) ≠ "" := encodeValues_ne_empty hmem
    rw [PlateDecoder, GetRequest, buildURL_of_parse c "v2/platedecoder" l _ hB]
    simp only [Except.map]
    rw [urlString_no_frag _ _ hne, String.append_assoc c.baseURL "/v2/platedecoder" "?"]
    exact rfl
  · rw [hentries, hcanon]
    have h1 : List.Perm [("plate", "7XER187"), ("source", c.source), ("state", "CA")]
        [("source", c.source), ("plate", "7XER187"), ("state", "CA")] :=
      List.Perm.swap ("source", c.source) ("plate", "7XER187") [("state", "CA")]
    have h2 : List.Perm
        [("key", c.apiKey), ("plate", "7XER187"), ("source", c.source), ("state", "CA")]
        [("key", c.apiKey), ("source", c.source), ("plate", "7XER187"), ("state", "CA")] :=
      List.Perm.cons _ h1
    have h3 : List.Perm
        ([("key", c.apiKey), ("plate", "7XER187"), ("source", c.source), ("state", "CA")]
            ++ [("country", "US")])
        ([("key", c.apiKey), ("source", c.source), ("plate", "7XER187"), ("state", "CA")]
            ++ [("country", "US")]) :=
      h2.append_right [("country", "US")]
    exact ((List.perm_append_singleton ("country", "US")
      [("key", c.apiKey), ("plate", "7XER187"), ("source", c.source),
        ("state", "CA")]).symm).trans h3

/-- C7 witness: the theorem at the default client configuration and the
mapping in source order. -/
theorem plateDecoder_example_witness :
    parseURL ((⟨"K", "https://api.carsxe.com", "go"⟩ : Client).baseURL ++ "/"
        ++ trimLeftSlashes "v2/platedecoder")
      = some ⟨"https://api.carsxe.com" ++ "/v2/platedecoder", "", none⟩ ∧
      PlateDecoder ⟨"K", "https://api.carsxe.com", "go"⟩
          [("plate", "7XER187"), ("state", "CA"), ("country", "US")]
        = .ok ⟨"GET", "https://api.carsxe.com" ++ "/v2/platedecoder?"
            ++ encodeValues (buildQuery ⟨"K", "https://api.carsxe.com", "go"⟩ ""
              [("plate", "7XER187"), ("state", "CA"), ("country", "US")]), [], ""⟩ :=
  ⟨rfl, (plateDecoder_example ⟨"K", "https://api.carsxe.com", "go"⟩
    [("plate", "7XER187"), ("state", "CA"), ("country", "US")] rfl (List.Perm.refl _)).1⟩

/-- C8 counterexample: the claim that the built request carries
country=US when the mapping omits the country is false: PlateDecoder is
a pure passthrough and the built query holds no country entry at all. -/
theorem plateDecoder_no_country_cx :
    PlateDecoder ⟨"K", "https://api.carsxe.com", "go"⟩ [("plate", "7XER187")]
        = .ok ⟨"GET",
          "https://api.carsxe.com/v2/platedecoder?key=K&plate=7XER187&source=go", [], ""⟩ ∧
      ("country", "US") ∉ queryEntries
        (buildQuery ⟨"K", "https://api.carsxe.com", "go"⟩ "" [("plate", "7XER187")]) :=
  ⟨rfl, by decide⟩

/-- C8 (amended): the client applies no country default anywhere: a
country entry appears in the query built from any raw query and
parameter mapping exactly when the caller supplied it non-empty (or it
was already present in the parsed raw query); the US default of the
endpoint is applied by the remote service, not by this client. -/
theorem buildQuery_country_iff (c : Client) (raw : String)
    (params : List (String × String)) (v : String) :
    ("country", v) ∈ queryEntries (buildQuery c raw params) ↔
      ("country", v) ∈ parseQuery raw ∨ (("country", v) ∈ params ∧ v ≠ "") := by
  rw [mem_queryEntries, buildQuery, addParams_eq_append, List.mem_append,
    mem_valuesSet_of_ne _ _ (by decide), mem_valuesSet_of_ne _ _ (by decide)]
  have hf : (("country", v) ∈ params.filter (fun p => p.2 != ""))
      ↔ (("country", v) ∈ params ∧ v ≠ "") := by
    rw [List.mem_filter]
    simp
  rw [hf]

/-- C9: whenever PlateImageRecognition or VinOCR issues a request, that
request is a POST whose body is exactly the JSON encoding of the
one-field image object for the given URL (with the encoder's trailing
newline) and whose Content-Type header is application/json. -/
theorem imageEndpoints_post_json (c : Client) (U : String) (r1 r2 : Request)
    (h1 : PlateImageRecognition c U = .ok r1) (h2 : VinOCR c U = .ok r2) :
    (r1.method = "POST" ∧ r1.body = "\x7b\"image\":" ++ goJSONQuote U ++ "\x7d\n" ∧
        r1.headers = [("Content-Type", "application/json")]) ∧
      (r2.method = "POST" ∧ r2.body = "\x7b\"image\":" ++ goJSONQuote U ++ "\x7d\n" ∧
        r2.headers = [("Content-Type", "application/json")]) := by
  constructor
  · rw [PlateImageRecognition] at h1
    by_cases ht : trimSpace U = ""
    · rw [if_pos ht] at h1
      exact absurd h1 (by simp)
    · rw [if_neg ht, postJSON] at h1
      cases hu : buildURL c "platerecognition" [] with
      | error s => rw [hu] at h1; exact absurd h1 (by simp [Except.map])
      | ok u =>
        rw [hu] at h1
        simp only [Except.map] at h1
        injection h1 with h1
        subst h1
        exact ⟨rfl, rfl, rfl⟩
  · rw [VinOCR] at h2
    by_cases ht : trimSpace U = ""
    · rw [if_pos ht] at h2
      exact absurd h2 (by simp)
    · rw [if_neg ht, postJSON] at h2
      cases hu : buildURL c "v1/vinocr" [] with
      | error s => rw [hu] at h2; exact absurd h2 (by simp [Except.map])
      | ok u =>
        rw [hu] at h2
        simp only [Except.map] at h2
        injection h2 with h2
        subst h2
        exact ⟨rfl, rfl, rfl⟩

/-- C9 witness: both image endpoints at the default client and a
concrete image URL. -/
theorem imageEndpoints_post_json_witness :
    PlateImageRecognition ⟨"K", "https://api.carsxe.com", "go"⟩ "http://img"
        = .ok ⟨"POST", "https://api.carsxe.com/platerecognition?key=K&source=go",
          [("Content-Type", "application/json")], "\x7b\"image\":\"http://img\"\x7d\n"⟩ ∧
      VinOCR ⟨"K", "https://api.carsxe.com", "go"⟩ "http://img"
        = .ok ⟨"POST", "https://api.carsxe.com/v1/vinocr?key=K&source=go",
          [("Content-Type", "application/json")], "\x7b\"image\":\"http://img\"\x7d\n"⟩ ∧
      (⟨"POST", "https://api.carsxe.com/platerecognition?key=K&source=go",
        [("Content-Type", "application/json")],
        "\x7b\"image\":\"http://img\"\x7d\n"⟩ : Request).body
        = "\x7b\"image\":" ++ goJSONQuote "http://img" ++ "\x7d\n" :=
  ⟨rfl, rfl,
    ((imageEndpoints_post_json ⟨"K", "https://api.carsxe.com", "go"⟩ "http://img"
      ⟨"POST", "https://api.carsxe.com/platerecognition?key=K&source=go",
        [("Content-Type", "application/json")], "\x7b\"image\":\"http://img\"\x7d\n"⟩
      ⟨"POST", "https://api.carsxe.com/v1/vinocr?key=K&source=go",
        [("Content-Type", "application/json")], "\x7b\"image\":\"http://img\"\x7d\n"⟩
      rfl rfl).1).2.1⟩

/-- C10: buildURL is deterministic in the mapping's iteration order:
for any two iteration orders of the same parameter map (lists of pairs
with the same entries and pairwise distinct keys), the built URL string
is identical, because the encoder sorts the query by key. -/
theorem buildURL_deterministic (c : Client) (e : String)
    (l1 l2 : List (String × String)) (hnd : (l1.map Prod.fst).Nodup)
    (hp : List.Perm l1 l2) : buildURL c e l1 = buildURL c e l2 :=
  buildURL_eq_of_params_perm c e hnd hp

/-- C10 witness: two iteration orders of a concrete two-entry map. -/
theorem buildURL_deterministic_witness :
    (([("b", "2"), ("a", "1")].map Prod.fst).Nodup) ∧
      List.Perm [("b", "2"), ("a", "1")] [("a", "1"), ("b", "2")] ∧
      buildURL ⟨"K", "https://api.carsxe.com", "go"⟩ "specs" [("b", "2"), ("a", "1")]
        = buildURL ⟨"K", "https://api.carsxe.com", "go"⟩ "specs" [("a", "1"), ("b", "2")] :=
  ⟨by decide, by decide,
    buildURL_deterministic ⟨"K", "https://api.carsxe.com", "go"⟩ "specs"
      [("b", "2"), ("a", "1")] [("a", "1"), ("b", "2")] (by decide) (by decide)⟩
